import Mathlib

/-!
Verification of the mger-smibot document store and message pipeline.

The development shallowly embeds `src/database.py` (class `JSONDatabase`) and
the access/workflow parts of `src/bot.py`.  Durable JSON files are modelled by
`FileState` (parsed document, or missing/corrupt content), the in-memory
`self.cache` dict by a string-keyed association list, and operations that can
raise an uncaught Python exception return `Option` (`none` = exception).
-/

namespace SmiBot

/-! ### Decimal strings

`add_event` assigns ids with Python `str(len + 1)`, embedded as `toString` on
`Nat` (core `Nat.repr`).  To reason about id collisions we prove that the
decimal representation is injective, via a parse-back function.
-/

/-- Numeric value of a decimal digit character (`'0'` ↦ 0, …, `'9'` ↦ 9). -/
def decDigitVal (c : Char) : Nat := c.toNat - 48

/-- Left fold reading a decimal digit list into a number, from accumulator `a`. -/
def parseDecAcc (a : Nat) (l : List Char) : Nat :=
  l.foldl (fun x c => 10 * x + decDigitVal c) a

theorem parseDecAcc_nil (a : Nat) : parseDecAcc a [] = a := rfl

theorem parseDecAcc_cons (a : Nat) (c : Char) (l : List Char) :
    parseDecAcc a (c :: l) = parseDecAcc (10 * a + decDigitVal c) l := rfl

theorem decDigitVal_digitChar (m : Nat) (h : m < 10) :
    decDigitVal (Nat.digitChar m) = m := by
  interval_cases m <;> rfl

theorem toDigitsCore_parseDecAcc (fuel : Nat) :
    ∀ n ds a, n < fuel → ∃ k,
      parseDecAcc a (Nat.toDigitsCore 10 fuel n ds) =
        parseDecAcc (a * 10 ^ k + n) ds := by
  induction fuel with
  | zero => intro n ds a h; omega
  | succ f ih =>
    intro n ds a h
    rw [Nat.toDigitsCore]
    by_cases h10 : n / 10 = 0
    · refine ⟨1, ?_⟩
      simp only [h10, if_pos]
      have hn : n < 10 := by omega
      rw [parseDecAcc_cons, decDigitVal_digitChar (n % 10) (Nat.mod_lt _ (by omega))]
      have : n % 10 = n := Nat.mod_eq_of_lt hn
      rw [this]
      ring_nf
    · simp only [h10, if_neg, if_false]
      have hlt : n / 10 < f := by
        have h1 : n / 10 < n := Nat.div_lt_self (by omega) (by omega)
        omega
      obtain ⟨k, hk⟩ := ih (n / 10) (Nat.digitChar (n % 10) :: ds) a hlt
      refine ⟨k + 1, ?_⟩
      rw [hk, parseDecAcc_cons,
        decDigitVal_digitChar (n % 10) (Nat.mod_lt _ (by omega))]
      have hmul : 10 * (a * 10 ^ k + n / 10) + n % 10 =
          a * 10 ^ (k + 1) + (10 * (n / 10) + n % 10) := by ring
      rw [hmul, Nat.div_add_mod]

theorem parseDecAcc_toDigits (n : Nat) :
    parseDecAcc 0 (Nat.toDigits 10 n) = n := by
  obtain ⟨k, hk⟩ := toDigitsCore_parseDecAcc (n + 1) n [] 0 (Nat.lt_succ_self n)
  rw [Nat.toDigits, hk, parseDecAcc_nil, Nat.zero_mul, Nat.zero_add]

theorem natRepr_injective : Function.Injective Nat.repr := by
  intro a b hab
  have hdata : Nat.toDigits 10 a = Nat.toDigits 10 b := congrArg String.data hab
  have := congrArg (parseDecAcc 0) hdata
  rwa [parseDecAcc_toDigits, parseDecAcc_toDigits] at this

theorem natToString_injective (a b : Nat) (h : toString a = toString b) : a = b :=
  natRepr_injective h

/-! ### Python substring test (`needle in haystack`) -/

/-- Boolean test that `needle` is a leading segment of `hay`. -/
def startsList : List Char → List Char → Bool
  | [], _ => true
  | _ :: _, [] => false
  | a :: as, b :: bs => a == b && startsList as bs

/-- Boolean test that `needle` occurs contiguously inside `hay`
(Python `needle in hay` on strings). -/
def containsList (needle : List Char) : List Char → Bool
  | [] => startsList needle []
  | b :: t => startsList needle (b :: t) || containsList needle t

/-- Python `needle in hay` for strings. -/
def pyIn (needle hay : String) : Bool := containsList needle.data hay.data

/-- Python `str.lower()` (modelled per-character). -/
def strLower (s : String) : String := ⟨s.data.map Char.toLower⟩

theorem startsList_iff (n : List Char) :
    ∀ h : List Char, startsList n h = true ↔ ∃ t, n ++ t = h := by
  induction n with
  | nil =>
    intro h
    simp [startsList]
  | cons a as ih =>
    intro h
    cases h with
    | nil => simp [startsList]
    | cons b bs =>
      simp only [startsList, Bool.and_eq_true, beq_iff_eq, ih bs]
      constructor
      · rintro ⟨rfl, t, rfl⟩
        exact ⟨t, rfl⟩
      · rintro ⟨t, ht⟩
        have h1 : a = b := (List.cons.injEq _ _ _ _ ▸ ht).1
        have h2 : as ++ t = bs := (List.cons.injEq _ _ _ _ ▸ ht).2
        exact ⟨h1, t, h2⟩

theorem containsList_iff (n : List Char) :
    ∀ h : List Char, containsList n h = true ↔ ∃ s t, s ++ n ++ t = h := by
  intro h
  induction h with
  | nil =>
    simp only [containsList, startsList_iff]
    constructor
    · rintro ⟨t, ht⟩
      exact ⟨[], t, ht⟩
    · rintro ⟨s, t, hst⟩
      have hs : s = [] := by
        cases s with
        | nil => rfl
        | cons x xs => simp at hst
      subst hs
      exact ⟨t, hst⟩
  | cons b bs ih =>
    simp only [containsList, Bool.or_eq_true, startsList_iff, ih]
    constructor
    · rintro (⟨t, ht⟩ | ⟨s, t, hst⟩)
      · exact ⟨[], t, ht⟩
      · exact ⟨b :: s, t, by simp [hst]⟩
    · rintro ⟨s, t, hst⟩
      cases s with
      | nil => exact Or.inl ⟨t, hst⟩
      | cons x xs =>
        have hx : x = b := (List.cons.injEq _ _ _ _ ▸ hst).1
        have hrest : xs ++ n ++ t = bs := (List.cons.injEq _ _ _ _ ▸ hst).2
        exact Or.inr ⟨xs, t, hrest⟩

theorem pyIn_empty_needle (hay : String) : pyIn "" hay = true := by
  rw [pyIn]
  rcases hay with ⟨l⟩
  rw [containsList_iff]
  exact ⟨[], l, rfl⟩

/-! ### Data model of `JSONDatabase` (src/database.py)

Durable state: three JSON files.  `FileState.ok d` means the file exists and
parses to the expected document `d`; `FileState.bad` means the file is missing
or holds corrupt (non-JSON) content, so that `json.load` raises and
`_load_json` falls back to returning the empty dict `{}`.
-/

/-- Parse status of one durable JSON file. -/
inductive FileState (α : Type) where
  | ok (doc : α)
  | bad
deriving DecidableEq

/-- Result of `_load_json`: the parsed document, or the empty dict `{}`
returned when the file is missing or corrupt. -/
inductive LoadedJson (α : Type) where
  | doc (d : α)
  | emptyDict
deriving DecidableEq

/-- `JSONDatabase._load_json`: `json.load` wrapped in
`except (FileNotFoundError, json.JSONDecodeError): return {}`. -/
def load_json {α : Type} : FileState α → LoadedJson α
  | .ok d => .doc d
  | .bad => .emptyDict

/-- Subscripting the loaded dict with its collection key (`data["events"]`,
`data["users"]`, `data["media"]`): the empty dict `{}` has no such key, so the
subscript raises an uncaught `KeyError`, modelled as `none`. -/
def dictGet {α : Type} : LoadedJson α → Option α
  | .doc d => some d
  | .emptyDict => none

/-- Document stored in `whitelist.json`: `{"users": [...], "admins": [...]}`. -/
structure WhitelistDoc where
  users : List String
  admins : List String
deriving DecidableEq

/-- A record of `events.json` after `add_event` stamped `id` and `created_at`.
Timestamps are modelled as abstract `Nat` clock readings. -/
structure EventRec where
  title : String
  description : String
  date : String
  creator : String
  id : String
  created_at : Nat
deriving DecidableEq

/-- The caller-supplied part of an event dict (`add_event`'s `event_data`
argument before `id`/`created_at` are stamped). -/
structure EventPayload where
  title : String
  description : String
  date : String
  creator : String
deriving DecidableEq

/-- A record of `media.json`; `search_media` reads the `name`/`description`
keys with `media.get(key, "")`, so they are optional. -/
structure MediaRec where
  name : Option String
  description : Option String
deriving DecidableEq

/-- A value held in `self.cache`.  The dict is heterogeneous: boolean entries
under `"whitelist_" + username`, record lists under `"events"` / `"media"`. -/
inductive CacheVal where
  | bool (b : Bool)
  | events (l : List EventRec)
  | media (l : List MediaRec)
deriving DecidableEq

/-- The in-memory `self.cache` dict, as an association list with unique keys. -/
abbrev Cache : Type := List (String × CacheVal)

/-- `key in self.cache` / `self.cache[key]`. -/
def cacheLookup (c : Cache) (k : String) : Option CacheVal :=
  (c.find? (fun p => p.1 == k)).map (fun p => p.2)

/-- `self.cache[key] = v`. -/
def cacheInsert (c : Cache) (k : String) (v : CacheVal) : Cache :=
  (k, v) :: c.filter (fun p => !(p.1 == k))

/-- `self.cache.pop(key, None)`. -/
def cachePop (c : Cache) (k : String) : Cache :=
  c.filter (fun p => !(p.1 == k))

/-- Full state of one `JSONDatabase` instance: the three durable files plus
the in-memory cache. -/
structure DBState where
  whitelistFile : FileState WhitelistDoc
  eventsFile : FileState (List EventRec)
  mediaFile : FileState (List MediaRec)
  cache : Cache
deriving DecidableEq

/-- State after `_init_files` ran in a fresh data directory: all three files
hold their default documents and the cache is empty. -/
def initDB : DBState :=
  { whitelistFile := .ok { users := [], admins := [] },
    eventsFile := .ok [],
    mediaFile := .ok [],
    cache := [] }

/-- Cache key used by `is_whitelisted`: `f'whitelist_{username}'`. -/
def whitelistCacheKey (username : String) : String := "whitelist_" ++ username

/-- `JSONDatabase.add_to_whitelist`.  Note the cache invalidation pops the
key `"whitelist"`, exactly as in the source. -/
def add_to_whitelist (s : DBState) (username : String) : Option (Bool × DBState) :=
  match dictGet (load_json s.whitelistFile) with
  | none => none
  | some d =>
    if username ∉ d.users then
      some (true,
        { s with
          whitelistFile := .ok { d with users := d.users ++ [username] },
          cache := cachePop s.cache "whitelist" })
    else
      some (false, s)

/-- `JSONDatabase.is_whitelisted`: consult the per-username cache entry, else
load the file, test membership in `users` or `admins`, and cache the answer.
The `some _` fallback covers a cache entry of the wrong shape, which no code
path ever stores under a `whitelist_`-prefixed key. -/
def is_whitelisted (s : DBState) (username : String) : Option (Bool × DBState) :=
  match cacheLookup s.cache (whitelistCacheKey username) with
  | some (.bool b) => some (b, s)
  | some _ => none
  | none =>
    match dictGet (load_json s.whitelistFile) with
    | none => none
    | some d =>
      let b : Bool := decide (username ∈ d.users) || decide (username ∈ d.admins)
      some (b, { s with cache := cacheInsert s.cache (whitelistCacheKey username) (.bool b) })

/-- The record `add_event` appends: the payload plus stamped id and timestamp. -/
def mkEvent (p : EventPayload) (eid : String) (now : Nat) : EventRec :=
  { title := p.title, description := p.description, date := p.date,
    creator := p.creator, id := eid, created_at := now }

/-- `JSONDatabase.add_event`: id is `str(len(data["events"]) + 1)`;
`datetime.now()` is modelled by the `now` argument. -/
def add_event (s : DBState) (p : EventPayload) (now : Nat) : Option (String × DBState) :=
  match dictGet (load_json s.eventsFile) with
  | none => none
  | some evs =>
    let event_id := toString (evs.length + 1)
    some (event_id,
      { s with
        eventsFile := .ok (evs ++ [mkEvent p event_id now]),
        cache := cachePop s.cache "events" })

/-- `JSONDatabase.get_events`. -/
def get_events (s : DBState) : Option (List EventRec × DBState) :=
  match cacheLookup s.cache "events" with
  | some (.events l) => some (l, s)
  | some _ => none
  | none =>
    match dictGet (load_json s.eventsFile) with
    | none => none
    | some evs => some (evs, { s with cache := cacheInsert s.cache "events" (.events evs) })

/-- `JSONDatabase.delete_event`. -/
def delete_event (s : DBState) (event_id : String) : Option (Bool × DBState) :=
  match dictGet (load_json s.eventsFile) with
  | none => none
  | some evs =>
    let evs' := evs.filter (fun e => !(e.id == event_id))
    if evs'.length < evs.length then
      some (true, { s with eventsFile := .ok evs', cache := cachePop s.cache "events" })
    else
      some (false, s)

/-- The membership test of `search_media`, after the query was lowered:
`query in media.get("name", "").lower() or query in media.get("description", "").lower()`. -/
def mediaMatch (q : String) (m : MediaRec) : Bool :=
  pyIn q (strLower (m.name.getD "")) || pyIn q (strLower (m.description.getD ""))

/-- `JSONDatabase.search_media`: ensure the media cache is populated, then
filter the cached list by the lowered query. -/
def search_media (s : DBState) (query : String) : Option (List MediaRec × DBState) :=
  match (match cacheLookup s.cache "media" with
    | some (.media l) => some (l, s)
    | some _ => none
    | none =>
      match dictGet (load_json s.mediaFile) with
      | none => none
      | some ml => some (ml, { s with cache := cacheInsert s.cache "media" (.media ml) })) with
  | none => none
  | some (ml, s') => some (ml.filter (mediaMatch (strLower query)), s')

/-! ### Bot layer (src/bot.py)

The access middleware, the aiogram FSM sessions of the `/add_event` workflow,
and the dispatcher, restricted to what the claims are about.  Outbound
`message.answer` calls are logged in `World.sent`.
-/

/-- `message.from_user`: numeric id plus optional handle. -/
structure FromUser where
  id : Int
  username : Option String
deriving DecidableEq

/-- `message.from_user.username or str(message.from_user.id)`. -/
def senderName (fu : FromUser) : String := fu.username.getD (toString fu.id)

/-- Static administrator set `config.ADMIN_IDS`. -/
structure BotConfig where
  adminIds : List Int
deriving DecidableEq

/-- States of the `/add_event` FSM (`EventStates`). -/
inductive EvState where
  | waiting_for_title
  | waiting_for_description
  | waiting_for_date
deriving DecidableEq

/-- FSM scratch data written by `state.update_data` during `/add_event`:
only `title` and `description` are stored before the final step. -/
structure Scratch where
  title : Option String
  description : Option String
deriving DecidableEq

/-- One user's aiogram FSM session: current state and scratch data. -/
structure Session where
  state : Option EvState
  scratch : Scratch
deriving DecidableEq

/-- A session that does not exist yet, or was cleared by `state.clear()`. -/
def emptySession : Session := ⟨none, ⟨none, none⟩⟩

/-- Whole-process state: the database, the per-user FSM storage, and the log
of messages sent back to the chat. -/
structure World where
  db : DBState
  sessions : List (Int × Session)
  sent : List String
deriving DecidableEq

/-- The FSM session of user `uid` (aiogram default: no state, empty data). -/
def getSession (w : World) (uid : Int) : Session :=
  ((w.sessions.find? (fun p => p.1 == uid)).map (fun p => p.2)).getD emptySession

/-- Replace the FSM session of user `uid`. -/
def setSession (w : World) (uid : Int) (sess : Session) : World :=
  { w with sessions := (uid, sess) :: w.sessions.filter (fun p => !(p.1 == uid)) }

/-- `message.answer(t)`. -/
def sendText (w : World) (t : String) : World :=
  { w with sent := w.sent ++ [t] }

/-- Outcome of `check_access_middleware`. -/
inductive GuardResult where
  | allowed
  | denied
  | allowedNoUser
deriving DecidableEq

/-- The fixed denial reply of the middleware. -/
def denialText : String := "⛔ У вас нет доступа к боту. Обратитесь к администратору."

/-- `check_access_middleware` up to its decision: admins always pass, then the
whitelist is consulted, otherwise deny; a message without `from_user` falls
through to the final `return await handler()`. -/
def check_access (cfg : BotConfig) (s : DBState) (fu : Option FromUser) :
    Option (GuardResult × DBState) :=
  match fu with
  | none => some (.allowedNoUser, s)
  | some u =>
    if u.id ∈ cfg.adminIds then
      some (.allowed, s)
    else
      match is_whitelisted s (senderName u) with
      | none => none
      | some (true, s') => some (.allowed, s')
      | some (false, s') => some (.denied, s')

/-- Message content, as far as the modelled handlers discriminate it. -/
inductive Content where
  | cmdAddEvent
  | text (t : String)
  | other
deriving DecidableEq

/-- `start_add_event`: prompt for the title and enter `waiting_for_title`
(`state.set_state` keeps existing FSM data). -/
def start_add_event (w : World) (uid : Int) : World :=
  let w1 := sendText w "📝 Введите название мероприятия:"
  setSession w1 uid { getSession w1 uid with state := some .waiting_for_title }

/-- `process_event_title`: store the title, prompt, advance the state. -/
def process_event_title (w : World) (uid : Int) (txt : String) : World :=
  let sess := getSession w uid
  let w1 := setSession w uid { sess with scratch := { sess.scratch with title := some txt } }
  let w2 := sendText w1 "📄 Введите описание мероприятия:"
  setSession w2 uid { getSession w2 uid with state := some .waiting_for_description }

/-- `process_event_description`: store the description, prompt, advance. -/
def process_event_description (w : World) (uid : Int) (txt : String) : World :=
  let sess := getSession w uid
  let w1 := setSession w uid { sess with scratch := { sess.scratch with description := some txt } }
  let w2 := sendText w1 "📅 Введите дату мероприятия (в формате ДД.ММ.ГГГГ):"
  setSession w2 uid { getSession w2 uid with state := some .waiting_for_date }

/-- `process_event_date`: assemble `event_data` from the scratch plus the date
text and the creator identity, commit via `add_event`, confirm, clear the
session. -/
def process_event_date (w : World) (fu : FromUser) (txt : String) (now : Nat) :
    Option World :=
  let sess := getSession w fu.id
  let payload : EventPayload :=
    { title := sess.scratch.title.getD "",
      description := sess.scratch.description.getD "",
      date := txt,
      creator := senderName fu }
  match add_event w.db payload now with
  | none => none
  | some (eid, db') =>
    let w1 := sendText { w with db := db' } ("✅ Мероприятие добавлено! ID: " ++ eid)
    some (setSession w1 fu.id emptySession)

/-- The dispatcher, restricted to the `/add_event` workflow: an explicit
command wins, free text continues the sender's active session, anything else
(or free text with no active state) matches no modelled handler. -/
def dispatch (w : World) (fu : FromUser) (c : Content) (now : Nat) : Option World :=
  match c with
  | .cmdAddEvent => some (start_add_event w fu.id)
  | .text t =>
    match (getSession w fu.id).state with
    | some .waiting_for_title => some (process_event_title w fu.id t)
    | some .waiting_for_description => some (process_event_description w fu.id t)
    | some .waiting_for_date => process_event_date w fu t now
    | none => some w
  | .other => some w

/-- One inbound message from `fu`: the middleware runs first; on denial the
fixed reply is sent and nothing else happens, otherwise the dispatcher runs. -/
def process_message (cfg : BotConfig) (w : World) (fu : FromUser) (c : Content)
    (now : Nat) : Option World :=
  match check_access cfg w.db (some fu) with
  | none => none
  | some (.denied, db') => some (sendText { w with db := db' } denialText)
  | some (_, db') => dispatch { w with db := db' } fu c now

/-- Process a list of inbound messages in order. -/
def runMsgs (cfg : BotConfig) (w : World) (ms : List (FromUser × Content))
    (now : Nat) : Option World :=
  match ms with
  | [] => some w
  | (fu, c) :: rest =>
    match process_message cfg w fu c now with
    | none => none
    | some w' => runMsgs cfg w' rest now

/-! ### Auxiliary states and sequences used by the claims -/

/-- Database state whose three files are all missing or corrupt. -/
def badDB : DBState := ⟨.bad, .bad, .bad, []⟩

/-- The expected id column of an events collection built by `n` appends with
no intervening deletion: `"1", "2", …, "n"`. -/
def canonIds (n : Nat) : List String :=
  (List.range n).map (fun i => toString (i + 1))

/-- Run a sequence of `add_event` calls (payload and clock reading each). -/
def runAdds (s : DBState) (ps : List (EventPayload × Nat)) : DBState :=
  match ps with
  | [] => s
  | (p, now) :: rest =>
    match add_event s p now with
    | none => s
    | some (_, s') => runAdds s' rest

/-- Run a sequence of `add_to_whitelist` calls. -/
def runWhitelistAdds (s : DBState) (us : List String) : DBState :=
  match us with
  | [] => s
  | u :: rest =>
    match add_to_whitelist s u with
    | none => s
    | some (_, s') => runWhitelistAdds s' rest

/-! ### Helper lemmas -/

theorem cacheLookup_insert_self (c : Cache) (k : String) (v : CacheVal) :
    cacheLookup (cacheInsert c k v) k = some v := by
  simp [cacheLookup, cacheInsert, List.find?]

theorem cacheLookup_pop_self (c : Cache) (k : String) :
    cacheLookup (cachePop c k) k = none := by
  induction c with
  | nil => rfl
  | cons p t ih =>
    by_cases hpk : p.1 == k
    · simpa [cachePop, List.filter, hpk] using ih
    · simp only [cachePop, List.filter] at ih ⊢
      simp only [hpk, Bool.not_false, cacheLookup, List.find?] at ih ⊢
      simp only [Bool.not_eq_true'] at hpk
      simp [hpk, ih]

theorem is_whitelisted_files (s : DBState) (u : String) (b : Bool) (s' : DBState)
    (h : is_whitelisted s u = some (b, s')) :
    s'.whitelistFile = s.whitelistFile ∧ s'.eventsFile = s.eventsFile ∧
      s'.mediaFile = s.mediaFile := by
  rw [is_whitelisted] at h
  rcases hc : cacheLookup s.cache (whitelistCacheKey u) with _ | cv
  · rw [hc] at h
    rcases hd : dictGet (load_json s.whitelistFile) with _ | d
    · rw [hd] at h; exact absurd h (by simp)
    · rw [hd] at h
      simp only [Option.some.injEq, Prod.mk.injEq] at h
      rw [← h.2]
      exact ⟨rfl, rfl, rfl⟩
  · rw [hc] at h
    cases cv with
    | bool bv =>
      simp only [Option.some.injEq, Prod.mk.injEq] at h
      rw [← h.2]
      exact ⟨rfl, rfl, rfl⟩
    | events l => exact absurd h (by simp)
    | media l => exact absurd h (by simp)

/-! ### Claim C1 -/

/-- C1, observed divergence (the claim itself is right about the intent and
the code violates it): from the freshly initialised store, `is_whitelisted
"alice"` caches `false` under key `"whitelist_alice"`; `add_to_whitelist
"alice"` then appends `"alice"` to the durable `users` list and returns
`true`, but its invalidation pops the key `"whitelist"`, so the stale entry
survives and the subsequent `is_whitelisted "alice"` still returns `false`
even though the durable whitelist now contains `"alice"`. -/
theorem C1_whitelist_cache_bug :
    ∃ s1 s2 s3,
      is_whitelisted initDB "alice" = some (false, s1) ∧
      add_to_whitelist s1 "alice" = some (true, s2) ∧
      (∃ d, s2.whitelistFile = .ok d ∧ "alice" ∈ d.users) ∧
      is_whitelisted s2 "alice" = some (false, s3) :=
  ⟨_, _, _, rfl, rfl, ⟨_, rfl, by decide⟩, rfl⟩

/-! ### Claim C2 -/

/-- C2, counterexample: append two events (ids `"1"`, `"2"`), delete id
`"1"`, and append again — the new id is `"2"` again, which both reuses an id
after a deletion and collides with the id of the record already present. -/
theorem C2_id_reuse_counterexample :
    ∃ s1 s2 s3 s4 e,
      add_event initDB ⟨"t1", "d1", "a1", "c"⟩ 0 = some ("1", s1) ∧
      add_event s1 ⟨"t2", "d2", "a2", "c"⟩ 1 = some ("2", s2) ∧
      delete_event s2 "1" = some (true, s3) ∧
      s3.eventsFile = .ok [e] ∧ e.id = "2" ∧
      add_event s3 ⟨"t3", "d3", "a3", "c"⟩ 2 = some ("2", s4) :=
  ⟨_, _, _, _, _, rfl, rfl, rfl, rfl, rfl, rfl⟩

theorem runAdds_canon : ∀ (ps : List (EventPayload × Nat)) (s : DBState)
    (evs : List EventRec), s.eventsFile = .ok evs →
    evs.map EventRec.id = canonIds evs.length →
    ∃ evs', (runAdds s ps).eventsFile = .ok evs' ∧
      evs'.length = evs.length + ps.length ∧
      evs'.map EventRec.id = canonIds evs'.length := by
  intro ps
  induction ps with
  | nil =>
    intro s evs hf hcanon
    exact ⟨evs, hf, by simp [runAdds], hcanon⟩
  | cons pn rest ih =>
    intro s evs hf hcanon
    obtain ⟨p, now⟩ := pn
    have hstep : runAdds s ((p, now) :: rest) =
        runAdds { s with
          eventsFile := .ok (evs ++ [mkEvent p (toString (evs.length + 1)) now]),
          cache := cachePop s.cache "events" } rest := by
      simp [runAdds, add_event, hf, load_json, dictGet]
    rw [hstep]
    have hcanon' : (evs ++ [mkEvent p (toString (evs.length + 1)) now]).map EventRec.id =
        canonIds (evs ++ [mkEvent p (toString (evs.length + 1)) now]).length := by
      simp only [List.map_append, List.length_append, List.length_singleton, hcanon]
      simp [canonIds, List.range_succ, mkEvent]
    obtain ⟨evs', h1, h2, h3⟩ := ih
      { s with eventsFile := .ok (evs ++ [mkEvent p (toString (evs.length + 1)) now]),
               cache := cachePop s.cache "events" }
      (evs ++ [mkEvent p (toString (evs.length + 1)) now]) rfl hcanon'
    refine ⟨evs', h1, ?_, h3⟩
    simp only [List.length_append, List.length_singleton] at h2
    simp only [List.length_cons]
    omega

theorem canonIds_nodup (n : Nat) : (canonIds n).Nodup := by
  refine List.Nodup.map ?_ (List.nodup_range n)
  intro i j hij
  have := natToString_injective (i + 1) (j + 1) hij
  omega

/-- C2, amended: the id assigned by `add_event` is the collection size plus
one, as a decimal string.  As long as no `delete_event` has occurred (so the
id column is still the canonical `"1" … "n"`), the new id differs from every
id already present and uniqueness is preserved; in particular any sequence of
`add_event` calls from the empty collection yields pairwise distinct ids.
(After deletions the id can collide, see the counterexample.) -/
theorem C2_id_uniqueness_amended :
    (∀ (s : DBState) (evs : List EventRec) (p : EventPayload) (now : Nat),
      s.eventsFile = .ok evs →
      evs.map EventRec.id = canonIds evs.length →
      ∃ s', add_event s p now = some (toString (evs.length + 1), s') ∧
        toString (evs.length + 1) ∉ evs.map EventRec.id ∧
        ∃ evs', s'.eventsFile = .ok evs' ∧
          evs'.map EventRec.id = canonIds (evs.length + 1)) ∧
    (∀ (ps : List (EventPayload × Nat)) (s₀ : DBState),
      s₀.eventsFile = .ok [] →
      ∃ evs', (runAdds s₀ ps).eventsFile = .ok evs' ∧
        evs'.length = ps.length ∧ (evs'.map EventRec.id).Nodup) := by
  constructor
  · intro s evs p now hf hcanon
    refine ⟨{ s with
        eventsFile := .ok (evs ++ [mkEvent p (toString (evs.length + 1)) now]),
        cache := cachePop s.cache "events" },
      by simp [add_event, hf, load_json, dictGet], ?_,
      evs ++ [mkEvent p (toString (evs.length + 1)) now], rfl, ?_⟩
    · rw [hcanon]
      intro hmem
      simp only [canonIds, List.mem_map, List.mem_range] at hmem
      obtain ⟨i, hi, hieq⟩ := hmem
      have := natToString_injective _ _ hieq
      omega
    · simp only [List.map_append, hcanon]
      simp [canonIds, List.range_succ, mkEvent]
  · intro ps s₀ hf
    obtain ⟨evs', h1, h2, h3⟩ := runAdds_canon ps s₀ [] hf rfl
    refine ⟨evs', h1, by simpa using h2, ?_⟩
    rw [h3]
    exact canonIds_nodup _

/-- C2, witness: the amended theorem applied to the freshly initialised store
(first conjunct) and to a concrete two-append run (second conjunct). -/
theorem C2_id_uniqueness_amended_witness :
    (∃ s', add_event initDB ⟨"t", "d", "a", "c"⟩ 3 =
        some (toString (List.length ([] : List EventRec) + 1), s') ∧
      toString (List.length ([] : List EventRec) + 1) ∉
        ([] : List EventRec).map EventRec.id ∧
      ∃ evs', s'.eventsFile = .ok evs' ∧
        evs'.map EventRec.id = canonIds (List.length ([] : List EventRec) + 1)) ∧
    (∃ evs', (runAdds initDB [(⟨"t", "d", "a", "c"⟩, 0), (⟨"u", "e", "b", "c"⟩, 1)]).eventsFile =
        .ok evs' ∧ evs'.length = 2 ∧ (evs'.map EventRec.id).Nodup) :=
  ⟨C2_id_uniqueness_amended.1 initDB [] ⟨"t", "d", "a", "c"⟩ 3 rfl rfl,
   C2_id_uniqueness_amended.2 [(⟨"t", "d", "a", "c"⟩, 0), (⟨"u", "e", "b", "c"⟩, 1)] initDB rfl⟩

/-! ### Claim C3 -/

/-- C3, observed divergence (the claim describes the documented intent and
the code misses it): when a collection file is missing or corrupt,
`_load_json` returns the empty dict `{}`, and every read operation then
subscripts the absent collection key, raising an uncaught `KeyError`
(modelled by `none`) instead of degrading to an empty collection. -/
theorem C3_corrupt_file_crash :
    load_json (FileState.bad : FileState (List EventRec)) = .emptyDict ∧
    get_events badDB = none ∧
    search_media badDB "news" = none ∧
    is_whitelisted badDB "alice" = none ∧
    add_to_whitelist badDB "alice" = none ∧
    delete_event badDB "1" = none :=
  ⟨rfl, rfl, rfl, rfl, rfl, rfl⟩

/-! ### Claims C5 and C6 -/

theorem get_events_of_file (s : DBState) (evs : List EventRec)
    (hf : s.eventsFile = FileState.ok evs)
    (hc : cacheLookup s.cache "events" = none) :
    get_events s =
      some (evs, { s with cache := cacheInsert s.cache "events" (.events evs) }) := by
  simp [get_events, hc, hf, load_json, dictGet]

theorem get_events_cached (s : DBState) (evs : List EventRec)
    (hc : cacheLookup s.cache "events" = some (.events evs)) :
    get_events s = some (evs, s) := by
  simp [get_events, hc]

/-- C5: `delete_event eid` returns `true` exactly when a record with that id
was in the durable collection; on `false` the whole state (durable file
included) is unchanged; and in either case a subsequent `get_events` yields a
list with no record carrying that id.  The cache hypothesis states in-process
coherence of the `"events"` entry (absent or equal to the durable list),
which every reachable state satisfies because each events write pops it. -/
theorem C5_delete_event_correct (s : DBState) (evs : List EventRec) (eid : String)
    (hf : s.eventsFile = FileState.ok evs)
    (hc : cacheLookup s.cache "events" = none ∨
          cacheLookup s.cache "events" = some (.events evs)) :
    ∃ b s', delete_event s eid = some (b, s') ∧
      (b = true ↔ ∃ e ∈ evs, e.id = eid) ∧
      (b = false → s' = s) ∧
      ∃ l s'', get_events s' = some (l, s'') ∧ ∀ e ∈ l, e.id ≠ eid := by
  by_cases hlt : (evs.filter (fun e => !(e.id == eid))).length < evs.length
  · refine ⟨true,
      { s with
        eventsFile := .ok (evs.filter (fun e => !(e.id == eid))),
        cache := cachePop s.cache "events" },
      by simp [delete_event, hf, load_json, dictGet, hlt], ?_, by simp, ?_⟩
    · have hex : ∃ e ∈ evs, e.id = eid := by
        by_contra hnone
        push_neg at hnone
        have hall : ∀ e ∈ evs, (!(e.id == eid)) = true := by
          intro e he
          simpa using hnone e he
        have := List.filter_length_eq_length.mpr hall
        omega
      exact ⟨fun _ => hex, fun _ => rfl⟩
    · refine ⟨_, _, get_events_of_file _ _ rfl (cacheLookup_pop_self _ _), ?_⟩
      intro e he
      have := (List.mem_filter.mp he).2
      simpa using this
  · have heq : (evs.filter (fun e => !(e.id == eid))).length = evs.length :=
      Nat.le_antisymm (List.length_filter_le _ _) (Nat.le_of_not_lt hlt)
    have hall := List.filter_length_eq_length.mp heq
    have hnone : ¬ ∃ e ∈ evs, e.id = eid := by
      rintro ⟨e, he, heid⟩
      have := hall e he
      rw [heid] at this
      simp at this
    refine ⟨false, s, by simp [delete_event, hf, load_json, dictGet, hlt], ?_,
      fun _ => rfl, ?_⟩
    · constructor
      · intro h
        exact absurd h (by simp)
      · intro h
        exact absurd h hnone
    · have hprop : ∀ e ∈ evs, e.id ≠ eid := by
        intro e he
        have := hall e he
        simpa using this
      rcases hc with hc | hc
      · exact ⟨evs, _, get_events_of_file s evs hf hc, hprop⟩
      · exact ⟨evs, s, get_events_cached s evs hc, hprop⟩

/-- C5, witness: deleting the only record (id `"1"`) of a one-record
collection. -/
theorem C5_delete_event_witness :
    ∃ b s', delete_event ⟨.ok ⟨[], []⟩, .ok [mkEvent ⟨"t", "d", "a", "c"⟩ "1" 0], .ok [], []⟩
        "1" = some (b, s') ∧
      (b = true ↔ ∃ e ∈ [mkEvent ⟨"t", "d", "a", "c"⟩ "1" 0], e.id = "1") ∧
      (b = false → s' = ⟨.ok ⟨[], []⟩, .ok [mkEvent ⟨"t", "d", "a", "c"⟩ "1" 0], .ok [], []⟩) ∧
      ∃ l s'', get_events s' = some (l, s'') ∧ ∀ e ∈ l, e.id ≠ "1" :=
  C5_delete_event_correct ⟨.ok ⟨[], []⟩, .ok [mkEvent ⟨"t", "d", "a", "c"⟩ "1" 0], .ok [], []⟩
    [mkEvent ⟨"t", "d", "a", "c"⟩ "1" 0] "1" rfl (Or.inl rfl)

/-- C6: after `add_event`, an immediate `get_events` returns a list containing
the stamped record exactly once, carrying the returned id (the collection
size plus one, as a decimal string).  The freshness hypothesis says the
engine-supplied `created_at` clock reading is new, which rules out a
pre-existing record that is field-for-field identical. -/
theorem C6_append_then_list (s : DBState) (evs : List EventRec) (p : EventPayload)
    (now : Nat) (hf : s.eventsFile = FileState.ok evs)
    (hfresh : ∀ e ∈ evs, e.created_at ≠ now) :
    ∃ s', add_event s p now = some (toString (evs.length + 1), s') ∧
      ∃ l s'', get_events s' = some (l, s'') ∧
        l.count (mkEvent p (toString (evs.length + 1)) now) = 1 ∧
        (mkEvent p (toString (evs.length + 1)) now).id = toString (evs.length + 1) := by
  refine ⟨{ s with
      eventsFile := .ok (evs ++ [mkEvent p (toString (evs.length + 1)) now]),
      cache := cachePop s.cache "events" },
    by simp [add_event, hf, load_json, dictGet], ?_⟩
  refine ⟨_, _, get_events_of_file _ _ rfl (cacheLookup_pop_self _ _), ?_, rfl⟩
  rw [List.count_append]
  have hnot : mkEvent p (toString (evs.length + 1)) now ∉ evs := by
    intro hmem
    exact hfresh _ hmem rfl
  rw [List.count_eq_zero.mpr hnot]
  simp

/-- C6, witness: appending to the freshly initialised (empty) collection. -/
theorem C6_append_then_list_witness :
    ∃ s', add_event initDB ⟨"t", "d", "a", "c"⟩ 5 =
        some (toString (List.length ([] : List EventRec) + 1), s') ∧
      ∃ l s'', get_events s' = some (l, s'') ∧
        l.count (mkEvent ⟨"t", "d", "a", "c"⟩
          (toString (List.length ([] : List EventRec) + 1)) 5) = 1 ∧
        (mkEvent ⟨"t", "d", "a", "c"⟩
          (toString (List.length ([] : List EventRec) + 1)) 5).id =
          toString (List.length ([] : List EventRec) + 1) :=
  C6_append_then_list initDB [] ⟨"t", "d", "a", "c"⟩ 5 rfl (by simp)

/-! ### Claim C8 -/

/-- C8: `search_media q` returns exactly the media records whose `name` or
`description` contains `q` as a case-insensitive substring, in collection
order (the result is the order-preserving `filter` of the collection by that
test); a query matching neither field of any record yields the empty list,
and the empty query returns every record.  The hypothesis fixes the effective
collection: the cached list, or the durable one on a cold cache. -/
theorem C8_search_media_correct (s : DBState) (ml : List MediaRec) (q : String)
    (hc : cacheLookup s.cache "media" = some (.media ml) ∨
          (cacheLookup s.cache "media" = none ∧ s.mediaFile = FileState.ok ml)) :
    (∃ s', search_media s q = some (ml.filter (mediaMatch (strLower q)), s')) ∧
    (∀ m, mediaMatch (strLower q) m = true ↔
      ((∃ pre post, pre ++ (strLower q).data ++ post = (strLower (m.name.getD "")).data) ∨
       (∃ pre post, pre ++ (strLower q).data ++ post =
          (strLower (m.description.getD "")).data))) ∧
    ((∀ m ∈ ml, mediaMatch (strLower q) m = false) →
      ml.filter (mediaMatch (strLower q)) = []) ∧
    (∃ s'', search_media s "" = some (ml, s'')) := by
  have hrun : ∀ query : String, ∃ s',
      search_media s query = some (ml.filter (mediaMatch (strLower query)), s') := by
    intro query
    rcases hc with hc | ⟨hc, hfile⟩
    · exact ⟨s, by simp [search_media, hc]⟩
    · exact ⟨{ s with cache := cacheInsert s.cache "media" (.media ml) },
        by simp [search_media, hc, hfile, load_json, dictGet]⟩
  refine ⟨hrun q, ?_, ?_, ?_⟩
  · intro m
    simp [mediaMatch, pyIn, containsList_iff]
  · intro hnone
    rw [List.filter_eq_nil_iff]
    intro m hm
    simp [hnone m hm]
  · obtain ⟨s'', hs''⟩ := hrun ""
    refine ⟨s'', ?_⟩
    rw [hs'']
    have h0 : strLower "" = "" := rfl
    have hall : ml.filter (mediaMatch (strLower "")) = ml := by
      rw [List.filter_eq_self]
      intro m _
      simp [mediaMatch, h0, pyIn_empty_needle]
    rw [hall]

/-- C8, witness: the spec's scenario — one record named `"City News"`,
queried with `"news"` (cold cache over the durable file). -/
theorem C8_search_media_witness :
    (∃ s', search_media ⟨.ok ⟨[], []⟩, .ok [], .ok [⟨some "City News", some "paper"⟩], []⟩
        "news" = some ([⟨some "City News", some "paper"⟩].filter
          (mediaMatch (strLower "news")), s')) ∧
    (∀ m, mediaMatch (strLower "news") m = true ↔
      ((∃ pre post, pre ++ (strLower "news").data ++ post =
          (strLower (m.name.getD "")).data) ∨
       (∃ pre post, pre ++ (strLower "news").data ++ post =
          (strLower (m.description.getD "")).data))) ∧
    ((∀ m ∈ [(⟨some "City News", some "paper"⟩ : MediaRec)],
        mediaMatch (strLower "news") m = false) →
      [(⟨some "City News", some "paper"⟩ : MediaRec)].filter
        (mediaMatch (strLower "news")) = []) ∧
    (∃ s'', search_media ⟨.ok ⟨[], []⟩, .ok [], .ok [⟨some "City News", some "paper"⟩], []⟩
        "" = some ([⟨some "City News", some "paper"⟩], s'')) :=
  C8_search_media_correct ⟨.ok ⟨[], []⟩, .ok [], .ok [⟨some "City News", some "paper"⟩], []⟩
    [⟨some "City News", some "paper"⟩] "news" (Or.inr ⟨rfl, rfl⟩)

/-! ### Claim C9 -/

theorem runWhitelistAdds_nodup : ∀ (us : List String) (s : DBState) (d : WhitelistDoc),
    s.whitelistFile = FileState.ok d → d.users.Nodup →
    ∃ d', (runWhitelistAdds s us).whitelistFile = FileState.ok d' ∧ d'.users.Nodup := by
  intro us
  induction us with
  | nil =>
    intro s d hf hd
    exact ⟨d, hf, hd⟩
  | cons u rest ih =>
    intro s d hf hd
    by_cases hu : u ∈ d.users
    · have hstep : runWhitelistAdds s (u :: rest) = runWhitelistAdds s rest := by
        simp [runWhitelistAdds, add_to_whitelist, hf, load_json, dictGet, hu]
      rw [hstep]
      exact ih s d hf hd
    · have hstep : runWhitelistAdds s (u :: rest) = runWhitelistAdds
        { s with
          whitelistFile := .ok { d with users := d.users ++ [u] },
          cache := cachePop s.cache "whitelist" } rest := by
        simp [runWhitelistAdds, add_to_whitelist, hf, load_json, dictGet, hu]
      rw [hstep]
      refine ih _ { d with users := d.users ++ [u] } rfl ?_
      simp [List.nodup_append, hd, hu]

/-- C9: starting from the freshly initialised store, no sequence of
`add_to_whitelist` calls ever produces a duplicate username in the durable
`users` list; moreover `add_to_whitelist u` appends `u` and returns `true`
exactly when `u` is absent, and returns `false` leaving the entire state
unchanged when `u` is already present. -/
theorem C9_whitelist_unique :
    (∀ us : List String, ∃ d',
      (runWhitelistAdds initDB us).whitelistFile = FileState.ok d' ∧ d'.users.Nodup) ∧
    (∀ (s : DBState) (d : WhitelistDoc) (u : String), s.whitelistFile = FileState.ok d →
      (u ∉ d.users → add_to_whitelist s u = some (true,
        { s with
          whitelistFile := .ok { d with users := d.users ++ [u] },
          cache := cachePop s.cache "whitelist" })) ∧
      (u ∈ d.users → add_to_whitelist s u = some (false, s))) := by
  constructor
  · intro us
    exact runWhitelistAdds_nodup us initDB ⟨[], []⟩ rfl List.nodup_nil
  · intro s d u hf
    constructor
    · intro hu
      simp [add_to_whitelist, hf, load_json, dictGet, hu]
    · intro hu
      simp [add_to_whitelist, hf, load_json, dictGet, hu]

/-- C9, witness: a run that adds `"alice"` twice and `"bob"` once, plus both
branches of the characterisation at concrete states. -/
theorem C9_whitelist_unique_witness :
    (∃ d', (runWhitelistAdds initDB ["alice", "alice", "bob"]).whitelistFile =
        FileState.ok d' ∧ d'.users.Nodup) ∧
    (add_to_whitelist initDB "alice" = some (true,
      { initDB with
        whitelistFile := .ok { users := [] ++ ["alice"], admins := [] },
        cache := cachePop initDB.cache "whitelist" })) ∧
    (add_to_whitelist ⟨.ok ⟨["alice"], []⟩, .ok [], .ok [], []⟩ "alice" =
      some (false, ⟨.ok ⟨["alice"], []⟩, .ok [], .ok [], []⟩)) :=
  ⟨C9_whitelist_unique.1 ["alice", "alice", "bob"],
   (C9_whitelist_unique.2 initDB ⟨[], []⟩ "alice" rfl).1 (by decide),
   (C9_whitelist_unique.2 ⟨.ok ⟨["alice"], []⟩, .ok [], .ok [], []⟩ ⟨["alice"], []⟩
     "alice" rfl).2 (by decide)⟩

/-! ### Claim C10 -/

/-- C10: `is_whitelisted u` consults both lists of the whitelist document, so
a username in the file's `admins` list is reported whitelisted (on a fresh
cache entry), and the Access Guard consequently admits such a sender even
when their numeric id is not in the static `ADMIN_IDS` set. -/
theorem C10_admins_list_whitelisted (s : DBState) (users admins : List String)
    (u : String) (hf : s.whitelistFile = FileState.ok ⟨users, admins⟩)
    (hc : cacheLookup s.cache (whitelistCacheKey u) = none)
    (hu : u ∈ admins) :
    (∃ s', is_whitelisted s u = some (true, s')) ∧
    (∀ (cfg : BotConfig) (fu : FromUser), fu.username = some u →
      fu.id ∉ cfg.adminIds →
      ∃ s', check_access cfg s (some fu) = some (.allowed, s')) := by
  have hwl : is_whitelisted s u = some (true,
      { s with cache := cacheInsert s.cache (whitelistCacheKey u) (.bool true) }) := by
    simp [is_whitelisted, hc, hf, load_json, dictGet, hu]
  constructor
  · exact ⟨_, hwl⟩
  · intro cfg fu hname hadm
    have hsn : senderName fu = u := by
      simp [senderName, hname]
    refine ⟨{ s with cache := cacheInsert s.cache (whitelistCacheKey u) (.bool true) }, ?_⟩
    simp [check_access, hadm, hsn, hwl]

/-- C10, witness: `"carol"` appears only in the file's `admins` list and her
numeric id `7` is not a static admin id, yet the guard admits her. -/
theorem C10_admins_list_witness :
    (∃ s', is_whitelisted ⟨.ok ⟨[], ["carol"]⟩, .ok [], .ok [], []⟩ "carol" =
      some (true, s')) ∧
    (∃ s', check_access ⟨[100]⟩ ⟨.ok ⟨[], ["carol"]⟩, .ok [], .ok [], []⟩
      (some ⟨7, some "carol"⟩) = some (.allowed, s')) :=
  ⟨(C10_admins_list_whitelisted ⟨.ok ⟨[], ["carol"]⟩, .ok [], .ok [], []⟩ [] ["carol"]
      "carol" rfl rfl (by decide)).1,
   (C10_admins_list_whitelisted ⟨.ok ⟨[], ["carol"]⟩, .ok [], .ok [], []⟩ [] ["carol"]
      "carol" rfl rfl (by decide)).2 ⟨[100]⟩ ⟨7, some "carol"⟩ rfl (by decide)⟩

/-! ### Pipeline helper lemmas -/

theorem getSession_setSession_self (w : World) (uid : Int) (sess : Session) :
    getSession (setSession w uid sess) uid = sess := by
  simp [getSession, setSession, List.find?]

theorem getSession_sendText (w : World) (t : String) (uid : Int) :
    getSession (sendText w t) uid = getSession w uid := rfl

theorem is_whitelisted_true_cached (s : DBState) (u : String) (s' : DBState)
    (h : is_whitelisted s u = some (true, s')) :
    cacheLookup s'.cache (whitelistCacheKey u) = some (.bool true) := by
  rw [is_whitelisted] at h
  rcases hc : cacheLookup s.cache (whitelistCacheKey u) with _ | cv
  · rw [hc] at h
    rcases hd : dictGet (load_json s.whitelistFile) with _ | d
    · rw [hd] at h
      exact absurd h (by simp)
    · rw [hd] at h
      simp only [Option.some.injEq, Prod.mk.injEq] at h
      obtain ⟨hb, rfl⟩ := h
      show cacheLookup (cacheInsert s.cache (whitelistCacheKey u) _) _ = _
      rw [cacheLookup_insert_self, hb]
  · rw [hc] at h
    cases cv with
    | bool bv =>
      simp only [Option.some.injEq, Prod.mk.injEq] at h
      obtain ⟨hb, rfl⟩ := h
      rw [hc, hb]
    | events l => exact absurd h (by simp)
    | media l => exact absurd h (by simp)

theorem check_access_allowed (cfg : BotConfig) (s : DBState) (fu : FromUser)
    (s' : DBState) (h : check_access cfg s (some fu) = some (.allowed, s')) :
    (s'.whitelistFile = s.whitelistFile ∧ s'.eventsFile = s.eventsFile ∧
      s'.mediaFile = s.mediaFile) ∧
    (fu.id ∈ cfg.adminIds ∨
      cacheLookup s'.cache (whitelistCacheKey (senderName fu)) = some (.bool true)) := by
  rw [check_access] at h
  by_cases hadm : fu.id ∈ cfg.adminIds
  · rw [if_pos hadm] at h
    simp only [Option.some.injEq, Prod.mk.injEq] at h
    obtain ⟨-, rfl⟩ := h
    exact ⟨⟨rfl, rfl, rfl⟩, Or.inl hadm⟩
  · rw [if_neg hadm] at h
    rcases hw : is_whitelisted s (senderName fu) with _ | ⟨b, s₁⟩
    · rw [hw] at h
      exact absurd h (by simp)
    · rw [hw] at h
      cases b
      · simp at h
      · simp only [Option.some.injEq, Prod.mk.injEq] at h
        obtain ⟨-, rfl⟩ := h
        obtain ⟨h1, h2, h3⟩ := is_whitelisted_files s _ _ _ hw
        exact ⟨⟨h1, h2, h3⟩, Or.inr (is_whitelisted_true_cached s _ _ hw)⟩

theorem check_access_stable (cfg : BotConfig) (s : DBState) (fu : FromUser)
    (h : fu.id ∈ cfg.adminIds ∨
      cacheLookup s.cache (whitelistCacheKey (senderName fu)) = some (.bool true)) :
    check_access cfg s (some fu) = some (.allowed, s) := by
  by_cases hadm : fu.id ∈ cfg.adminIds
  · simp [check_access, hadm]
  · rcases h with h | h
    · exact absurd h hadm
    · simp [check_access, hadm, is_whitelisted, h]

theorem process_message_stable (cfg : BotConfig) (w : World) (fu : FromUser)
    (c : Content) (now : Nat)
    (h : fu.id ∈ cfg.adminIds ∨
      cacheLookup w.db.cache (whitelistCacheKey (senderName fu)) = some (.bool true)) :
    process_message cfg w fu c now = dispatch w fu c now := by
  have hca := check_access_stable cfg w.db fu h
  simp only [process_message, hca]

/-! ### Claim C4 -/

/-- C4, counterexample: the whitelist file contains `"alice"`, but a stale
cached `False` under `"whitelist_alice"` (left behind because
`add_to_whitelist` pops the wrong key) makes the guard deny her message:
despite her handle being present in the whitelist collection, the pipeline
produces only the fixed denial reply. -/
theorem C4_denied_whitelisted_counterexample :
    (∃ d, (⟨.ok ⟨["alice"], []⟩, .ok [], .ok [],
        [("whitelist_alice", .bool false)]⟩ : DBState).whitelistFile = .ok d ∧
      "alice" ∈ d.users) ∧
    (5 : Int) ∉ ([100] : List Int) ∧
    process_message ⟨[100]⟩
      ⟨⟨.ok ⟨["alice"], []⟩, .ok [], .ok [], [("whitelist_alice", .bool false)]⟩, [], []⟩
      ⟨5, some "alice"⟩ (.text "hello") 0 =
      some ⟨⟨.ok ⟨["alice"], []⟩, .ok [], .ok [], [("whitelist_alice", .bool false)]⟩,
        [], [denialText]⟩ :=
  ⟨⟨_, rfl, by decide⟩, by decide, rfl⟩

/-- C4, amended: admission is evaluated in order — a sender id in the static
admin set runs the handler; otherwise the sender is admitted iff
`is_whitelisted` returns `true` (which coincides with membership in the
whitelist document's `users` or `admins` lists whenever no cached entry
exists for that username, but can be a stale cached answer otherwise);
otherwise the fixed denial message is sent and processing short-circuits:
the result is independent of the message content, no handler runs, the
durable files are untouched and the session store is unchanged. -/
theorem C4_admission_amended (cfg : BotConfig) (w : World) (fu : FromUser)
    (c : Content) (now : Nat) :
    (fu.id ∈ cfg.adminIds →
      process_message cfg w fu c now = dispatch w fu c now) ∧
    (fu.id ∉ cfg.adminIds →
      ∀ b s', is_whitelisted w.db (senderName fu) = some (b, s') →
        (b = true →
          process_message cfg w fu c now = dispatch { w with db := s' } fu c now) ∧
        (b = false →
          process_message cfg w fu c now = some (sendText { w with db := s' } denialText) ∧
          (sendText { w with db := s' } denialText).sessions = w.sessions ∧
          s'.whitelistFile = w.db.whitelistFile ∧
          s'.eventsFile = w.db.eventsFile ∧
          s'.mediaFile = w.db.mediaFile)) ∧
    (cacheLookup w.db.cache (whitelistCacheKey (senderName fu)) = none →
      ∀ d, w.db.whitelistFile = FileState.ok d →
        is_whitelisted w.db (senderName fu) = some
          ((decide (senderName fu ∈ d.users) || decide (senderName fu ∈ d.admins)),
           { w.db with
             cache := cacheInsert w.db.cache (whitelistCacheKey (senderName fu))
               (.bool (decide (senderName fu ∈ d.users) ||
                 decide (senderName fu ∈ d.admins))) })) := by
  refine ⟨?_, ?_, ?_⟩
  · intro hadm
    have hca : check_access cfg w.db (some fu) = some (.allowed, w.db) := by
      simp [check_access, hadm]
    simp only [process_message, hca]
  · intro hadm b s' hwl
    constructor
    · intro hb
      subst hb
      have hca : check_access cfg w.db (some fu) = some (.allowed, s') := by
        simp [check_access, hadm, hwl]
      simp only [process_message, hca]
    · intro hb
      subst hb
      have hca : check_access cfg w.db (some fu) = some (.denied, s') := by
        simp [check_access, hadm, hwl]
      obtain ⟨h1, h2, h3⟩ := is_whitelisted_files w.db _ _ _ hwl
      exact ⟨by simp only [process_message, hca], rfl, h1, h2, h3⟩
  · intro hcold d hd
    simp [is_whitelisted, hcold, hd, load_json, dictGet]

/-- C4, witness: an administrator (id `100`) bypasses the whitelist and the
handler branch runs. -/
theorem C4_admission_amended_witness :
    process_message ⟨[100]⟩ ⟨initDB, [], []⟩ ⟨100, some "bob"⟩ .other 0 =
      dispatch ⟨initDB, [], []⟩ ⟨100, some "bob"⟩ .other 0 :=
  (C4_admission_amended ⟨[100]⟩ ⟨initDB, [], []⟩ ⟨100, some "bob"⟩ .other 0).1 (by decide)

/-! ### Claim C7 -/

theorem dispatch_text_title (w : World) (fu : FromUser) (t : String) (now : Nat)
    (h : (getSession w fu.id).state = some EvState.waiting_for_title) :
    dispatch w fu (.text t) now = some (process_event_title w fu.id t) := by
  simp [dispatch, h]

theorem dispatch_text_description (w : World) (fu : FromUser) (t : String) (now : Nat)
    (h : (getSession w fu.id).state = some EvState.waiting_for_description) :
    dispatch w fu (.text t) now = some (process_event_description w fu.id t) := by
  simp [dispatch, h]

theorem dispatch_text_date (w : World) (fu : FromUser) (t : String) (now : Nat)
    (h : (getSession w fu.id).state = some EvState.waiting_for_date) :
    dispatch w fu (.text t) now = process_event_date w fu t now := by
  simp [dispatch, h]

theorem start_add_event_getSession (w : World) (uid : Int) :
    getSession (start_add_event w uid) uid =
      { getSession w uid with state := some .waiting_for_title } := by
  simp [start_add_event, getSession_setSession_self, getSession_sendText]

theorem process_event_title_getSession (w : World) (uid : Int) (t : String) :
    getSession (process_event_title w uid t) uid =
      { state := some .waiting_for_description,
        scratch := { (getSession w uid).scratch with title := some t } } := by
  simp [process_event_title, getSession_setSession_self, getSession_sendText]

theorem process_event_description_getSession (w : World) (uid : Int) (t : String) :
    getSession (process_event_description w uid t) uid =
      { state := some .waiting_for_date,
        scratch := { (getSession w uid).scratch with description := some t } } := by
  simp [process_event_description, getSession_setSession_self, getSession_sendText]

theorem process_event_date_effect (w : World) (fu : FromUser) (txt : String)
    (now : Nat) (evs : List EventRec) (hf : w.db.eventsFile = FileState.ok evs) :
    ∃ w', process_event_date w fu txt now = some w' ∧
      w'.db.eventsFile = .ok (evs ++ [mkEvent
        ⟨(getSession w fu.id).scratch.title.getD "",
         (getSession w fu.id).scratch.description.getD "",
         txt, senderName fu⟩ (toString (evs.length + 1)) now]) ∧
      getSession w' fu.id = emptySession := by
  refine ⟨setSession (sendText
      { w with db :=
        { w.db with
          eventsFile := .ok (evs ++ [mkEvent
            ⟨(getSession w fu.id).scratch.title.getD "",
             (getSession w fu.id).scratch.description.getD "",
             txt, senderName fu⟩ (toString (evs.length + 1)) now]),
          cache := cachePop w.db.cache "events" } }
      ("✅ Мероприятие добавлено! ID: " ++ toString (evs.length + 1))) fu.id emptySession,
    ?_, rfl, getSession_setSession_self _ _ _⟩
  simp [process_event_date, add_event, hf, load_json, dictGet, mkEvent]

/-- C7: a user admitted by the Access Guard who completes the `/add_event`
workflow with free-text inputs `t`, `d`, `a` commits exactly one event
record: the durable collection becomes the old one plus one record whose
`title`, `description`, `date` equal the inputs in order, whose `creator` is
the sender's handle (or numeric id when no handle exists), stamped with the
engine-supplied timestamp and the freshly assigned id; the user's session is
cleared afterwards. -/
theorem C7_event_workflow (cfg : BotConfig) (w : World) (fu : FromUser)
    (t d a : String) (now : Nat) (evs : List EventRec) (db₁ : DBState)
    (hallow : check_access cfg w.db (some fu) = some (GuardResult.allowed, db₁))
    (hf : w.db.eventsFile = FileState.ok evs) :
    ∃ wf, runMsgs cfg w
        [(fu, .cmdAddEvent), (fu, .text t), (fu, .text d), (fu, .text a)] now =
        some wf ∧
      ∃ e, wf.db.eventsFile = FileState.ok (evs ++ [e]) ∧
        e.title = t ∧ e.description = d ∧ e.date = a ∧
        e.creator = senderName fu ∧ e.created_at = now ∧
        e.id = toString (evs.length + 1) ∧
        getSession wf fu.id = emptySession := by
  obtain ⟨⟨-, hev₁, -⟩, hstable⟩ := check_access_allowed cfg w.db fu db₁ hallow
  have h1 : process_message cfg w fu .cmdAddEvent now =
      some (start_add_event { w with db := db₁ } fu.id) := by
    simp only [process_message, hallow]
    rfl
  set w1 := start_add_event { w with db := db₁ } fu.id with hw1def
  have hw1db : w1.db = db₁ := rfl
  have hw1st : (getSession w1 fu.id).state = some EvState.waiting_for_title := by
    rw [hw1def, start_add_event_getSession]
  have h2 : process_message cfg w1 fu (.text t) now =
      some (process_event_title w1 fu.id t) := by
    rw [process_message_stable cfg w1 fu _ now (by rw [hw1db]; exact hstable),
      dispatch_text_title _ _ _ _ hw1st]
  set w2 := process_event_title w1 fu.id t with hw2def
  have hw2db : w2.db = db₁ := hw1db
  have hw2sess : getSession w2 fu.id =
      { state := some .waiting_for_description,
        scratch := { (getSession w1 fu.id).scratch with title := some t } } := by
    rw [hw2def, process_event_title_getSession]
  have h3 : process_message cfg w2 fu (.text d) now =
      some (process_event_description w2 fu.id d) := by
    rw [process_message_stable cfg w2 fu _ now (by rw [hw2db]; exact hstable),
      dispatch_text_description _ _ _ _ (by rw [hw2sess])]
  set w3 := process_event_description w2 fu.id d with hw3def
  have hw3db : w3.db = db₁ := hw2db
  have hw3sess : getSession w3 fu.id =
      { state := some .waiting_for_date, scratch := ⟨some t, some d⟩ } := by
    rw [hw3def, process_event_description_getSession, hw2sess]
  have hf3 : w3.db.eventsFile = FileState.ok evs := by
    rw [hw3db, hev₁, hf]
  obtain ⟨w4, h4run, h4file, h4sess⟩ := process_event_date_effect w3 fu a now evs hf3
  have h4 : process_message cfg w3 fu (.text a) now = some w4 := by
    rw [process_message_stable cfg w3 fu _ now (by rw [hw3db]; exact hstable),
      dispatch_text_date _ _ _ _ (by rw [hw3sess]), h4run]
  refine ⟨w4, ?_, mkEvent ⟨t, d, a, senderName fu⟩ (toString (evs.length + 1)) now,
    ?_, rfl, rfl, rfl, rfl, rfl, rfl, h4sess⟩
  · simp only [runMsgs, h1, h2, h3, h4]
  · rw [h4file, hw3sess]
    rfl

/-- C7, witness: administrator `100` (handle `"bob"`) runs the workflow with
the spec scenario's inputs against the freshly initialised store. -/
theorem C7_event_workflow_witness :
    ∃ wf, runMsgs ⟨[100]⟩ ⟨initDB, [], []⟩
        [(⟨100, some "bob"⟩, .cmdAddEvent), (⟨100, some "bob"⟩, .text "Meetup"),
         (⟨100, some "bob"⟩, .text "Monthly"),
         (⟨100, some "bob"⟩, .text "01.01.2030")] 7 = some wf ∧
      ∃ e, wf.db.eventsFile = FileState.ok ([] ++ [e]) ∧
        e.title = "Meetup" ∧ e.description = "Monthly" ∧ e.date = "01.01.2030" ∧
        e.creator = senderName ⟨100, some "bob"⟩ ∧ e.created_at = 7 ∧
        e.id = toString (List.length ([] : List EventRec) + 1) ∧
        getSession wf (100 : Int) = emptySession :=
  C7_event_workflow ⟨[100]⟩ ⟨initDB, [], []⟩ ⟨100, some "bob"⟩
    "Meetup" "Monthly" "01.01.2030" 7 [] initDB rfl rfl

end SmiBot
